import Mathlib

/-!
Shallow embedding of `asset_packer.py` (Improved Asset Packer For Momentum).

Python byte strings are modelled as `List Nat` (each element a byte value),
monochrome rasters as `List (List Bool)` (rows of pixels; `true` is the bit
that ends up set in the packed XBM data: the source pipeline inverts the
image with `ImageOps.invert` and then the XBM writer sets a bit for each
lit pixel of the inverted image, so `true` models an originally dark pixel,
and `recover_png_from_bm`'s `1 - bit` maps a set bit back to pixel value 0).

The external `heatshrink2` library is not part of this repository; its
`compress`/`decompress` entry points are modelled as oracle parameters
(`Compressor`/`Decompressor`), taking the `window_sz2`/`lookahead_sz2`
arguments exactly as the source passes them.
-/

namespace AssetPacker

/-- Value of a list of bits, least significant bit first (XBM bit order). -/
def bitsToByte (bits : List Bool) : Nat :=
  bits.foldr (fun b acc => (cond b 1 0) + 2 * acc) 0

/-- The eight bits of a byte, least significant first; this is the order
`recover_png_from_bm` uses: `(byte >> i) & 1` for `i in range(8)`. -/
def byteToBits (b : Nat) : List Bool :=
  (List.range 8).map (fun i => (b / 2 ^ i) % 2 = 1)

/-- Pack a row of pixels into bytes, eight pixels per byte, least significant
bit first, the final partial byte padded with clear bits (the XBM packing the
source obtains by saving with `format="XBM"` and reparsing the hex text). -/
def packBits : List Bool → List Nat
  | b0 :: b1 :: b2 :: b3 :: b4 :: b5 :: b6 :: b7 :: rest =>
      bitsToByte [b0, b1, b2, b3, b4, b5, b6, b7] :: packBits rest
  | [] => []
  | bits => [bitsToByte bits]

/-- Packed bytes of a whole raster: each row packed independently (rows are
padded to whole bytes), concatenated top to bottom. This is the `data_bin`
of `convert_to_bm` (source lines 81-90). -/
def xbmBytes (rows : List (List Bool)) : List Nat :=
  rows.foldr (fun r acc => packBits r ++ acc) []

/-- Oracle for `heatshrink2.compress window_sz2 lookahead_sz2 data`. -/
def Compressor : Type := Nat → Nat → List Nat → List Nat

/-- Oracle for `heatshrink2.decompress window_sz2 lookahead_sz2 data`. -/
def Decompressor : Type := Nat → Nat → List Nat → List Nat

/-- Python `bytearray([...])` literal: every element must be a byte,
otherwise a `ValueError` is raised (modelled as `none`). -/
def pyBytearrayLit (xs : List Nat) : Option (List Nat) :=
  if xs.all (fun b => b < 256) then some xs else none

/-- Framing part of `convert_to_bm` (source lines 92-101), applied to the
packed bytes `data_bin`: compress, build the 2-byte little-endian length
prefix with `[len & 0xFF, len >> 8]`, and choose the compressed framing
exactly when `len(data_enc) + 2 < len(data_bin) + 1`. -/
def convert_to_bm_packed (compress : Compressor) (data_bin : List Nat) : Option (List Nat) :=
  let data_encoded := compress 8 4 data_bin
  match pyBytearrayLit [data_encoded.length % 256, data_encoded.length / 256] with
  | none => none
  | some p =>
    let data_enc := p ++ data_encoded
    if data_enc.length + 2 < data_bin.length + 1 then
      some ([1, 0] ++ data_enc)
    else
      some ([0] ++ data_bin)

/-- The whole of `convert_to_bm` on an already 1-bit raster (source lines
76-101): XBM-pack the rows, then frame with optional compression. -/
def convert_to_bm (compress : Compressor) (rows : List (List Bool)) : Option (List Nat) :=
  convert_to_bm_packed compress (xbmBytes rows)

/-- Payload selection of `recover_png_from_bm` (source lines 122-125): if the
buffer starts with bytes `01 00`, skip 4 bytes and decompress with the same
constants as encode; otherwise skip 1 byte and use the remainder raw. -/
def recover_data (decompress : Decompressor) (bm : List Nat) : List Nat :=
  if bm.take 2 = [1, 0] then decompress 8 4 (bm.drop 4) else bm.drop 1

/-- Row-major fill of a fresh `width x height` mode "1" image: unfilled
pixels keep the initial value 0 (which stands for a set bit here, since
`recover_png_from_bm` stores `1 - bit`). -/
def putdataFill (width height : Nat) (vals : List Bool) : List (List Bool) :=
  (List.range height).map (fun r => (List.range width).map (fun c => vals.getD (r * width + c) true))

/-- Model of `Image.putdata` on a fresh `width x height` mode "1" image: a
value list longer than the pixel count raises `TypeError: too many data
entries` (modelled as `none`); otherwise the values fill the image
row-major. -/
def putdata (width height : Nat) (vals : List Bool) : Option (List (List Bool)) :=
  if width * height < vals.length then none else some (putdataFill width height vals)

/-- The whole of `recover_png_from_bm` (source lines 114-130): select the
payload, expand each byte into its eight bits (least significant first), and
fill a `width x height` raster. -/
def recover_png_from_bm (decompress : Decompressor) (bm : List Nat) (width height : Nat) :
    Option (List (List Bool)) :=
  putdata width height (((recover_data decompress bm).map byteToBits).flatten)

/-! ### Characterization of the encoder's framing -/

/-- Behaviour of a two-element `bytearray` literal. -/
theorem pyBytearrayLit_pair (a b : Nat) :
    pyBytearrayLit [a, b] = if a < 256 ∧ b < 256 then some [a, b] else none := by
  unfold pyBytearrayLit
  by_cases ha : a < 256 <;> by_cases hb : b < 256 <;> simp [ha, hb]

/-- Closed form of `convert_to_bm_packed`: the length-prefix construction
succeeds exactly when the high length byte fits, and then the branch
condition `len(data_enc) + 2 < len(data_bin) + 1` amounts to comparing the
total framed sizes `4 + len(compressed)` and `1 + len(raw)`. -/
theorem convert_to_bm_packed_eq (compress : Compressor) (data_bin : List Nat) :
    convert_to_bm_packed compress data_bin =
      if (compress 8 4 data_bin).length / 256 < 256 then
        (if 4 + (compress 8 4 data_bin).length < 1 + data_bin.length then
          some ([1, 0] ++ [(compress 8 4 data_bin).length % 256,
            (compress 8 4 data_bin).length / 256] ++ compress 8 4 data_bin)
        else some ([0] ++ data_bin))
      else none := by
  have h1 : (compress 8 4 data_bin).length % 256 < 256 := Nat.mod_lt _ (by omega)
  unfold convert_to_bm_packed
  dsimp only
  rw [pyBytearrayLit_pair]
  by_cases hb : (compress 8 4 data_bin).length / 256 < 256
  · rw [if_pos (And.intro h1 hb), if_pos hb]
    exact if_congr (by simp [List.length_append]; omega) rfl rfl
  · rw [if_neg (by tauto), if_neg hb]

/-- Claim C1 (amended): the compressed variant is chosen iff
`4 + len(compressed_payload) < 1 + len(raw_payload)`, i.e. compression must
beat the raw framing even after paying for the two flag bytes and the
two-byte length prefix. -/
theorem convert_to_bm_compression_choice (compress : Compressor) (rows : List (List Bool))
    (out : List Nat) (h : convert_to_bm compress rows = some out) :
    out.take 2 = [1, 0] ↔
      4 + (compress 8 4 (xbmBytes rows)).length < 1 + (xbmBytes rows).length := by
  rw [convert_to_bm, convert_to_bm_packed_eq] at h
  by_cases hb : (compress 8 4 (xbmBytes rows)).length / 256 < 256
  · rw [if_pos hb] at h
    by_cases hc : 4 + (compress 8 4 (xbmBytes rows)).length < 1 + (xbmBytes rows).length
    · rw [if_pos hc] at h
      cases h
      simpa using hc
    · rw [if_neg hc] at h
      cases h
      constructor
      · intro htk
        exfalso
        cases hxb : xbmBytes rows with
        | nil => rw [hxb] at htk; simp [List.take] at htk
        | cons a t => rw [hxb] at htk; simp [List.take] at htk
      · intro hlt; exact absurd hlt hc
  · rw [if_neg hb] at h; cases h

/-- Witness for `convert_to_bm_compression_choice` at a concrete input: six
all-clear rows of width 8 pack to six raw bytes, an oracle that compresses
them to zero bytes wins (`4 + 0 < 1 + 6`), and the output indeed starts with
the compressed flag pair. -/
theorem convert_to_bm_compression_choice_witness :
    ([1, 0, 0, 0] : List Nat).take 2 = [1, 0] :=
  (convert_to_bm_compression_choice (fun _ _ _ => []) (List.replicate 6 (List.replicate 8 false))
    [1, 0, 0, 0] (by decide)).mpr (by decide)

/-- Claim C1 counterexample: the claim's inequality `3 + len(compressed) <
1 + len(raw)` predicts the compressed variant for a compressed payload of
1 byte against a raw payload of 4 bytes (`3 + 1 < 1 + 4`), but the code,
which compares `len(data_enc) + 2 < len(data_bin) + 1` with the two length
bytes already inside `data_enc`, produces the raw framing `00 ++ raw` for a
width-8, height-4 all-clear raster under an oracle compressing its four
packed bytes to the single byte `[0]`. -/
theorem convert_to_bm_compression_choice_counterexample :
    ((fun _ _ _ => [0]) : Compressor) 8 4 (xbmBytes (List.replicate 4 (List.replicate 8 false))) = [0] ∧
    (xbmBytes (List.replicate 4 (List.replicate 8 false))).length = 4 ∧
    3 + 1 < 1 + 4 ∧
    convert_to_bm (fun _ _ _ => [0]) (List.replicate 4 (List.replicate 8 false)) =
      some [0, 0, 0, 0, 0] ∧
    ([0, 0, 0, 0, 0] : List Nat).take 2 ≠ [1, 0] := by
  refine ⟨rfl, by decide, by decide, by decide, by decide⟩

/-- Claim C4: every successful `convert_to_bm` output is either the
compressed framing `[0x01, 0x00] ++ u16LE(len(compressed)) ++ compressed`
(the little-endian length counting only the compressed bytes, the second
flag byte fixed at `0x00`) or the raw framing `[0x00] ++ raw_packed`. -/
theorem convert_to_bm_framing (compress : Compressor) (rows : List (List Bool))
    (out : List Nat) (h : convert_to_bm compress rows = some out) :
    out = [1, 0] ++ [(compress 8 4 (xbmBytes rows)).length % 256,
            (compress 8 4 (xbmBytes rows)).length / 256] ++ compress 8 4 (xbmBytes rows) ∨
    out = [0] ++ xbmBytes rows := by
  rw [convert_to_bm, convert_to_bm_packed_eq] at h
  by_cases hb : (compress 8 4 (xbmBytes rows)).length / 256 < 256
  · rw [if_pos hb] at h
    by_cases hc : 4 + (compress 8 4 (xbmBytes rows)).length < 1 + (xbmBytes rows).length
    · rw [if_pos hc] at h; cases h; exact Or.inl rfl
    · rw [if_neg hc] at h; cases h; exact Or.inr rfl
  · rw [if_neg hb] at h; cases h

/-- Witness for `convert_to_bm_framing`: a two-row raster of width 4 packs
raw (no compressor can beat the framing overhead on two bytes), and the
output is exactly `[0x00] ++ raw_packed`. -/
theorem convert_to_bm_framing_witness :
    ([0, 15, 15] : List Nat) = [1, 0] ++ [(((fun _ _ _ => []) : Compressor) 8 4
        (xbmBytes [[true, true, true, true], [true, true, true, true]])).length % 256,
        (((fun _ _ _ => []) : Compressor) 8 4
        (xbmBytes [[true, true, true, true], [true, true, true, true]])).length / 256] ++
        ((fun _ _ _ => []) : Compressor) 8 4
        (xbmBytes [[true, true, true, true], [true, true, true, true]]) ∨
    ([0, 15, 15] : List Nat) = [0] ++ xbmBytes [[true, true, true, true], [true, true, true, true]] :=
  convert_to_bm_framing (fun _ _ _ => []) [[true, true, true, true], [true, true, true, true]]
    [0, 15, 15] (by decide)

/-- Claim C10: the two-byte length prefix `[len & 0xFF, len >> 8]` represents
the compressed length only while it is at most 65535; from 65536 bytes on,
`len >> 8` no longer fits a byte, the `bytearray` constructor raises (modelled
as `none`), and no wrapped length is ever emitted. -/
theorem convert_to_bm_length_field (compress : Compressor) (rows : List (List Bool)) :
    ((compress 8 4 (xbmBytes rows)).length ≤ 65535 →
      ∃ out, convert_to_bm compress rows = some out ∧
        (out.take 2 = [1, 0] →
          (out.drop 2).take 2 = [(compress 8 4 (xbmBytes rows)).length % 256,
            (compress 8 4 (xbmBytes rows)).length / 256] ∧
          (compress 8 4 (xbmBytes rows)).length % 256 +
            256 * ((compress 8 4 (xbmBytes rows)).length / 256) =
            (compress 8 4 (xbmBytes rows)).length)) ∧
    (65536 ≤ (compress 8 4 (xbmBytes rows)).length →
      256 ≤ (compress 8 4 (xbmBytes rows)).length / 256 ∧
      convert_to_bm compress rows = none) := by
  constructor
  · intro hle
    have hb : (compress 8 4 (xbmBytes rows)).length / 256 < 256 := by omega
    rw [convert_to_bm, convert_to_bm_packed_eq, if_pos hb]
    by_cases hc : 4 + (compress 8 4 (xbmBytes rows)).length < 1 + (xbmBytes rows).length
    · rw [if_pos hc]
      refine ⟨_, rfl, fun _ => ⟨rfl, ?_⟩⟩
      have := Nat.mod_add_div (compress 8 4 (xbmBytes rows)).length 256
      omega
    · rw [if_neg hc]
      refine ⟨_, rfl, fun htk => absurd htk ?_⟩
      cases hxb : xbmBytes rows with
      | nil => simp [List.take]
      | cons a t => simp [List.take]
  · intro hge
    have hb : 256 ≤ (compress 8 4 (xbmBytes rows)).length / 256 := by omega
    refine ⟨hb, ?_⟩
    rw [convert_to_bm, convert_to_bm_packed_eq, if_neg (by omega)]

/-- Witness for `convert_to_bm_length_field`: under an oracle that blows a
single packed byte up to 65536 bytes, encoding errors out; under the empty
oracle it succeeds. -/
theorem convert_to_bm_length_field_witness :
    convert_to_bm (fun _ _ _ => List.replicate 65536 0) [[true]] = none ∧
    ∃ out, convert_to_bm (fun _ _ _ => []) [[true]] = some out := by
  constructor
  · exact ((convert_to_bm_length_field (fun _ _ _ => List.replicate 65536 0) [[true]]).2
      (by simp only [List.length_replicate]; omega)).2
  · obtain ⟨out, hout, -⟩ :=
      (convert_to_bm_length_field (fun _ _ _ => []) [[true]]).1 (by decide)
    exact ⟨out, hout⟩

/-! ### Decode branch selection -/

/-- Claim C3: `recover_png_from_bm` selects its branch from the first two
bytes alone: when they are `01 00` it skips four bytes and decompresses the
remainder with the same `window_sz2 = 8`, `lookahead_sz2 = 4` constants the
encoder passes; otherwise it skips exactly one byte and unpacks the
remainder raw. The conclusion depends on the buffer only through
`bm.take 2`, `bm.drop 4` and `bm.drop 1`, never its total length. -/
theorem recover_branch_selection (decompress : Decompressor) (bm : List Nat) (w h : Nat) :
    (bm.take 2 = [1, 0] →
      recover_png_from_bm decompress bm w h =
        putdata w h (((decompress 8 4 (bm.drop 4)).map byteToBits).flatten)) ∧
    (bm.take 2 ≠ [1, 0] →
      recover_png_from_bm decompress bm w h =
        putdata w h (((bm.drop 1).map byteToBits).flatten)) := by
  constructor
  · intro ht
    rw [recover_png_from_bm, recover_data, if_pos ht]
  · intro ht
    rw [recover_png_from_bm, recover_data, if_neg ht]

/-- Witness for `recover_branch_selection`: a five-byte compressed-framed
buffer takes the decompression branch on its tail after the four framing
bytes, and a two-byte raw-framed buffer takes the raw branch after one flag
byte. -/
theorem recover_branch_selection_witness :
    recover_png_from_bm (fun _ _ d => d) [1, 0, 9, 9, 5] 8 1 =
      putdata 8 1 ((([5].map byteToBits)).flatten) ∧
    recover_png_from_bm (fun _ _ d => d) [0, 3] 8 1 =
      putdata 8 1 ((([3].map byteToBits)).flatten) :=
  ⟨(recover_branch_selection (fun _ _ d => d) [1, 0, 9, 9, 5] 8 1).1 (by decide),
   (recover_branch_selection (fun _ _ d => d) [0, 3] 8 1).2 (by decide)⟩

/-! ### Round-trip of the bitmap codec -/

/-- Unpacking a packed byte recovers its eight source bits. -/
theorem byteToBits_bitsToByte (bits : List Bool) (h : bits.length = 8) :
    byteToBits (bitsToByte bits) = bits := by
  have h8 : ∀ a b c d e f g i : Bool,
      byteToBits (bitsToByte [a, b, c, d, e, f, g, i]) = [a, b, c, d, e, f, g, i] := by decide
  rcases bits with _ | ⟨a, bits⟩; · simp at h
  rcases bits with _ | ⟨b, bits⟩; · simp at h
  rcases bits with _ | ⟨c, bits⟩; · simp at h
  rcases bits with _ | ⟨d, bits⟩; · simp at h
  rcases bits with _ | ⟨e, bits⟩; · simp at h
  rcases bits with _ | ⟨f, bits⟩; · simp at h
  rcases bits with _ | ⟨g, bits⟩; · simp at h
  rcases bits with _ | ⟨i, bits⟩; · simp at h
  rcases bits with _ | ⟨j, bits⟩
  · exact h8 a b c d e f g i
  · simp only [List.length_cons, List.length_nil] at h; omega

/-- Rows whose length is a multiple of eight pack and unpack losslessly. -/
theorem packBits_roundtrip_mul : ∀ (n : Nat) (row : List Bool), row.length = 8 * n →
    ((packBits row).map byteToBits).flatten = row := by
  intro n
  induction n with
  | zero =>
    intro row h
    rcases row with _ | ⟨a, row⟩
    · rfl
    · simp at h
  | succ k ih =>
    intro row h
    rcases row with _ | ⟨a, row⟩; · simp only [List.length_cons, List.length_nil] at h; omega
    rcases row with _ | ⟨b, row⟩; · simp only [List.length_cons, List.length_nil] at h; omega
    rcases row with _ | ⟨c, row⟩; · simp only [List.length_cons, List.length_nil] at h; omega
    rcases row with _ | ⟨d, row⟩; · simp only [List.length_cons, List.length_nil] at h; omega
    rcases row with _ | ⟨e, row⟩; · simp only [List.length_cons, List.length_nil] at h; omega
    rcases row with _ | ⟨f, row⟩; · simp only [List.length_cons, List.length_nil] at h; omega
    rcases row with _ | ⟨g, row⟩; · simp only [List.length_cons, List.length_nil] at h; omega
    rcases row with _ | ⟨i, row⟩; · simp only [List.length_cons, List.length_nil] at h; omega
    have hrow : row.length = 8 * k := by simp only [List.length_cons, List.length_nil] at h; omega
    simp only [packBits, List.map_cons, List.flatten_cons, ih row hrow]
    rw [byteToBits_bitsToByte _ (by rfl)]
    rfl

/-- Same statement through divisibility. -/
theorem packBits_roundtrip (row : List Bool) (h : (8 : Nat) ∣ row.length) :
    ((packBits row).map byteToBits).flatten = row := by
  obtain ⟨n, hn⟩ := h
  exact packBits_roundtrip_mul n row hn

/-- When every row's width is a multiple of eight, the packed bytes of a
raster expand back to the concatenation of its rows. -/
theorem xbmBytes_roundtrip (rows : List (List Bool)) (w : Nat) (hw : (8 : Nat) ∣ w)
    (h : ∀ row ∈ rows, row.length = w) :
    ((xbmBytes rows).map byteToBits).flatten = rows.flatten := by
  induction rows with
  | nil => rfl
  | cons r rs ih =>
    have hr : ((packBits r).map byteToBits).flatten = r :=
      packBits_roundtrip r (by rw [h r (by simp)]; exact hw)
    have hstep : xbmBytes (r :: rs) = packBits r ++ xbmBytes rs := rfl
    rw [hstep, List.map_append, List.flatten_append, hr, List.flatten_cons,
      ih (fun row hm => h row (by simp [hm]))]

/-- Reading a list back off the default-value accessor. -/
theorem map_range_getD (l : List Bool) (d : Bool) :
    (List.range l.length).map (fun i => l.getD i d) = l := by
  induction l with
  | nil => rfl
  | cons a t ih =>
    rw [List.length_cons, List.range_succ_eq_map, List.map_cons, List.map_map]
    simp only [List.getD_cons_zero, Function.comp_def, List.getD_cons_succ]
    rw [ih]

/-- Filling a fresh raster with the concatenated rows reproduces the rows:
the model of `putdata` inverts row-major flattening at matching dimensions. -/
theorem putdata_flatten (w : Nat) (rows : List (List Bool))
    (h : ∀ row ∈ rows, row.length = w) :
    putdataFill w rows.length rows.flatten = rows := by
  induction rows with
  | nil => rfl
  | cons r rs ih =>
    have hr : r.length = w := h r (by simp)
    unfold putdataFill
    rw [List.length_cons, List.range_succ_eq_map, List.map_cons, List.map_map]
    congr 1
    · rw [List.flatten_cons]
      have : ∀ c ∈ List.range w, (r ++ rs.flatten).getD (0 * w + c) true = r.getD c true := by
        intro c hc
        rw [Nat.zero_mul, Nat.zero_add]
        exact List.getD_append _ _ _ _ (by rw [hr]; exact List.mem_range.mp hc)
      rw [List.map_congr_left this, ← hr, map_range_getD]
    · have hrec := ih (fun row hm => h row (by simp [hm]))
      unfold putdataFill at hrec
      rw [List.flatten_cons]
      have hpt : ∀ i ∈ List.range rs.length,
          ((fun rr => (List.range w).map
              (fun c => (r ++ rs.flatten).getD (rr * w + c) true)) ∘ Nat.succ) i =
            (List.range w).map (fun c => rs.flatten.getD (i * w + c) true) := by
        intro i _
        simp only [Function.comp_def]
        apply List.map_congr_left
        intro c _
        have harith : (i + 1) * w + c = r.length + (i * w + c) := by rw [hr]; ring
        rw [harith, List.getD_append_right _ _ _ _ (Nat.le_add_right _ _), Nat.add_sub_cancel_left]
      exact (List.map_congr_left hpt).trans hrec

/-- Payload selection on a compressed-framed buffer: the first two bytes
match, four bytes are skipped and the rest decompressed. -/
theorem recover_data_comp (d : Decompressor) (p1 p2 : Nat) (c : List Nat) :
    recover_data d ([1, 0] ++ [p1, p2] ++ c) = d 8 4 c := by
  have hc : (([1, 0] ++ [p1, p2] ++ c) : List Nat).take 2 = [1, 0] := rfl
  have hdrop : (([1, 0] ++ [p1, p2] ++ c) : List Nat).drop 4 = c := rfl
  rw [recover_data, if_pos hc, hdrop]

/-- Payload selection on a raw-framed buffer: one byte is skipped. -/
theorem recover_data_raw (d : Decompressor) (data : List Nat) :
    recover_data d ([0] ++ data) = data := by
  have hc : (([0] ++ data) : List Nat).take 2 ≠ [1, 0] := by
    rcases data with _ | ⟨a, t⟩ <;> simp [List.take]
  rw [recover_data, if_neg hc]
  rfl

/-- Length of the concatenation of equal-width rows. -/
theorem flatten_length_const (rows : List (List Bool)) (w : Nat)
    (h : ∀ r ∈ rows, r.length = w) :
    rows.flatten.length = rows.length * w := by
  induction rows with
  | nil => simp
  | cons r rs ih =>
    rw [List.flatten_cons, List.length_append, h r (by simp),
      ih (fun q hq => h q (by simp [hq])), List.length_cons]
    ring

/-- Claim C2 (amended): for a 1-bit raster whose width is a multiple of
eight, decoding the encoding reproduces the raster exactly, given that the
decompression oracle inverts the compression oracle on the packed bytes (the
contract of the external heatshrink pair). For widths not divisible by
eight the decoder fails instead (see the counterexample): the packed rows
carry padding bits, so the flat bit list exceeds `width * height` and
`putdata` raises `TypeError: too many data entries`. -/
theorem recover_convert_roundtrip (compress : Compressor) (decompress : Decompressor)
    (rows : List (List Bool)) (w : Nat) (hw : (8 : Nat) ∣ w)
    (hlen : ∀ row ∈ rows, row.length = w)
    (hinv : decompress 8 4 (compress 8 4 (xbmBytes rows)) = xbmBytes rows)
    (bm : List Nat) (henc : convert_to_bm compress rows = some bm) :
    recover_png_from_bm decompress bm w rows.length = some rows := by
  have hframe := convert_to_bm_framing compress rows bm henc
  have hdata : recover_data decompress bm = xbmBytes rows := by
    rcases hframe with hcomp | hraw
    · subst hcomp
      rw [recover_data_comp]
      exact hinv
    · subst hraw
      exact recover_data_raw decompress (xbmBytes rows)
  rw [recover_png_from_bm, hdata, xbmBytes_roundtrip rows w hw hlen, putdata,
    if_neg (by rw [flatten_length_const rows w hlen, Nat.mul_comm]; omega),
    putdata_flatten w rows hlen]

/-- Witness for `recover_convert_roundtrip`: one all-set row of width 8
packs raw to `[0x00, 0xFF]` and decodes back to itself under the identity
compression pair. -/
theorem recover_convert_roundtrip_witness :
    recover_png_from_bm (fun _ _ d => d) [0, 255] 8 1 =
      some [[true, true, true, true, true, true, true, true]] :=
  recover_convert_roundtrip (fun _ _ d => d) (fun _ _ d => d)
    [[true, true, true, true, true, true, true, true]] 8 ⟨1, rfl⟩
    (by intro row hm; simp at hm; simp [hm]) rfl [0, 255] (by decide)

/-- Claim C2 counterexample: a width-4, height-2 all-set raster encodes (raw
framing is forced: even a zero-length compressed payload cannot beat the
framing overhead on two packed bytes) to `[0x00, 0x0F, 0x0F]`, but decoding
that at 4 x 2 fails: the two packed bytes expand to 16 bits for 8 pixels,
and `Image.putdata` raises `TypeError: too many data entries`, so
`decode(encode(x), w, h)` is not `x` when the width is not a multiple of
eight. -/
theorem recover_convert_roundtrip_counterexample :
    convert_to_bm (fun _ _ _ => []) [[true, true, true, true], [true, true, true, true]] =
      some [0, 15, 15] ∧
    recover_png_from_bm (fun _ _ d => d) [0, 15, 15] 4 2 = none ∧
    (none : Option (List (List Bool))) ≠
      some [[true, true, true, true], [true, true, true, true]] := by
  refine ⟨by decide, by decide, by decide⟩

/-! ### Path and text utilities shared by the packers -/

/-- Strict code-point order on character lists, the order Python's default
string comparison (and hence `sorted(..., key=lambda x: x.name)`) uses. -/
def strLtChars : List Char → List Char → Bool
  | [], [] => false
  | [], _ :: _ => true
  | _ :: _, [] => false
  | a :: as, b :: bs =>
      if a.toNat < b.toNat then true
      else if b.toNat < a.toNat then false
      else strLtChars as bs

/-- Strict order on strings by code points. -/
def pyStrLt (a b : String) : Bool := strLtChars a.toList b.toList

/-- Stable insertion used to model Python's stable `sorted`. -/
def insertSortedBy {α : Type} (lt : α → α → Bool) (x : α) : List α → List α
  | [] => [x]
  | y :: ys => if lt y x then y :: insertSortedBy lt x ys else x :: y :: ys

/-- Stable sort modelling Python's `sorted`. -/
def pySortedBy {α : Type} (lt : α → α → Bool) : List α → List α
  | [] => []
  | x :: xs => insertSortedBy lt x (pySortedBy lt xs)

theorem mem_insertSortedBy {α : Type} (lt : α → α → Bool) (a x : α) (l : List α)
    (h : x ∈ insertSortedBy lt a l) : x = a ∨ x ∈ l := by
  induction l with
  | nil => simpa [insertSortedBy] using h
  | cons y ys ih =>
    rw [insertSortedBy] at h
    by_cases hlt : lt y a = true
    · rw [if_pos hlt] at h
      rcases List.mem_cons.mp h with h1 | h2
      · exact Or.inr (by simp [h1])
      · rcases ih h2 with h3 | h4
        · exact Or.inl h3
        · exact Or.inr (by simp [h4])
    · rw [if_neg hlt] at h
      rcases List.mem_cons.mp h with h1 | h2
      · exact Or.inl h1
      · exact Or.inr h2

theorem mem_pySortedBy {α : Type} (lt : α → α → Bool) (x : α) (l : List α)
    (h : x ∈ pySortedBy lt l) : x ∈ l := by
  induction l with
  | nil => simp [pySortedBy] at h
  | cons y ys ih =>
    rw [pySortedBy] at h
    rcases mem_insertSortedBy lt y x _ h with h1 | h2
    · simp [h1]
    · simp [ih h2]

/-- Index of the last `.` in a name, if any. -/
def idxOfLastDot (cs : List Char) : Option Nat :=
  match (cs.reverse).findIdx? (fun c => c = '.') with
  | none => none
  | some j => some (cs.length - 1 - j)

/-- `pathlib.PurePath(name).suffix`: the extension from the last dot, which
must lie strictly inside the name (so `frame_rate`, `a.` and `.hidden` have
no suffix). -/
def pySuffix (name : String) : String :=
  match idxOfLastDot name.toList with
  | none => ""
  | some i =>
      if 0 < i ∧ i < name.toList.length - 1 then String.mk (name.toList.drop i) else ""

/-- `pathlib.PurePath(name).with_suffix(suf)`: replace the suffix if there is
one, else append. -/
def pyWithSuffix (name : String) (suf : String) : String :=
  match idxOfLastDot name.toList with
  | none => name ++ suf
  | some i =>
      if 0 < i ∧ i < name.toList.length - 1 then String.mk (name.toList.take i ++ suf.toList)
      else name ++ suf

/-- Python `str.startswith` on names. -/
def pyStarts (pre s : String) : Bool := go pre.toList s.toList where
  go : List Char → List Char → Bool
    | [], _ => true
    | _ :: _, [] => false
    | a :: as, b :: bs => a = b && go as bs

/-- Destination frame name `f"frame_{n:02}.bm"` (zero-padded to two digits). -/
def frameName (n : Nat) : String :=
  "frame_" ++ (if n < 10 then "0" ++ toString n else toString n) ++ ".bm"

/-- Python whitespace bytes recognised by `bytes.strip` / `str.strip`. -/
def isPyWs (b : Nat) : Bool := b = 9 || b = 10 || b = 11 || b = 12 || b = 13 || b = 32

/-- `bytes.strip()`. -/
def stripBytes (s : List Nat) : List Nat :=
  ((s.dropWhile isPyWs).reverse.dropWhile isPyWs).reverse

/-- Decimal digits to a number, rejecting empty or non-digit input. -/
def digitsToNat (ds : List Nat) : Option Nat :=
  if ds ≠ [] ∧ ds.all (fun d => 48 ≤ d && d ≤ 57) then
    some (ds.foldl (fun acc d => acc * 10 + (d - 48)) 0)
  else none

/-- Model of `int(text.strip())` on byte content: optional sign then decimal
digits, anything else raises (modelled as `none`). -/
def parsePyInt (s : List Nat) : Option Int :=
  match stripBytes s with
  | 45 :: rest => (digitsToNat rest).map (fun n => -(n : Int))
  | 43 :: rest => (digitsToNat rest).map (fun n => (n : Int))
  | rest => (digitsToNat rest).map (fun n => (n : Int))

/-- Little-endian 4-byte encoding of a (checked) 32-bit value. -/
def u32le (n : Nat) : List Nat :=
  [n % 256, n / 256 % 256, n / 65536 % 256, n / 16777216 % 256]

/-- One `<I` field of `struct.pack`: raises (is `none`) outside `[0, 2^32)`. -/
def structPackU32 (v : Int) : Option (List Nat) :=
  if 0 ≤ v ∧ v < 4294967296 then some (u32le v.toNat) else none

/-- `struct.pack("<IIII", w, h, fr, fc)`. -/
def structPackIIII (w h : Nat) (fr : Int) (fc : Nat) : Option (List Nat) := do
  let a ← structPackU32 (w : Int)
  let b ← structPackU32 (h : Int)
  let c ← structPackU32 fr
  let d ← structPackU32 (fc : Int)
  pure (a ++ b ++ c ++ d)

/-! ### Source directory model -/

/-- One regular file of a source directory. `image` is present when PIL can
open the file as an image (carrying its pixel size and 1-bit raster);
`content` is the raw byte content used by the non-image paths. -/
structure SrcFile where
  name : String
  image : Option ((Nat × Nat) × List (List Bool))
  content : List Nat
deriving DecidableEq

/-! ### pack_icon_animated (source lines 185-212) -/

/-- Loop state of `pack_icon_animated`: output frame counter, parsed frame
rate, first png size, and the writes performed so far (destination file name
paired with the bytes written, in order). -/
structure IconScanState where
  frame_count : Nat
  frame_rate : Option Int
  size : Option (Nat × Nat)
  writes : List (String × List Nat)
deriving DecidableEq

/-- One iteration of the `pack_icon_animated` loop body. -/
def animStep (compress : Compressor) (files : List SrcFile) (st : IconScanState)
    (frame : SrcFile) : Option IconScanState :=
  if frame.name = "frame_rate" then do
    let fr ← parsePyInt frame.content
    pure { st with frame_rate := some fr }
  else if frame.name = "meta" then
    pure { st with writes := st.writes ++ [("meta", frame.content)] }
  else if pySuffix frame.name = ".png" then do
    let img ← frame.image
    let size' := if st.size.isSome then st.size else some img.1
    let bm ← convert_to_bm compress img.2
    pure { st with size := size',
                   writes := st.writes ++ [(frameName st.frame_count, bm)],
                   frame_count := st.frame_count + 1 }
  else if pySuffix frame.name = ".bm" then
    if files.any (fun f => f.name = pyWithSuffix frame.name ".png") then
      pure st
    else
      pure { st with writes := st.writes ++ [(frameName st.frame_count, frame.content)],
                     frame_count := st.frame_count + 1 }
  else
    pure st

/-- The scan over the directory's files, sorted by name as the source does. -/
def animScan (compress : Compressor) (files : List SrcFile) : Option IconScanState :=
  (pySortedBy (fun a b => pyStrLt a.name b.name) files).foldlM (animStep compress files)
    ⟨0, none, none, []⟩

/-- The whole of `pack_icon_animated`: no-op unless a `frame_rate` or `meta`
marker file is present; after the scan, when both a size and a frame rate
were discovered, the generated 16-byte header is written as `meta`. -/
def pack_icon_animated (compress : Compressor) (files : List SrcFile) :
    Option (List (String × List Nat)) :=
  if files.any (fun f => f.name = "frame_rate") || files.any (fun f => f.name = "meta") then do
    let st ← animScan compress files
    match st.size, st.frame_rate with
    | some wh, some fr => do
        let hdr ← structPackIIII wh.1 wh.2 fr st.frame_count
        pure (st.writes ++ [("meta", hdr)])
    | _, _ => pure st.writes
  else some []

/-- A `<I` field on a cast natural number below `2^32`. -/
theorem structPackU32_natCast (n : Nat) (hn : n < 4294967296) :
    structPackU32 (n : Int) = some (u32le n) := by
  unfold structPackU32
  rw [if_pos (And.intro (by positivity) (by exact_mod_cast hn))]
  norm_num

/-- A `<I` field on an integer in range. -/
theorem structPackU32_int (v : Int) (h0 : 0 ≤ v) (hv : v < 4294967296) :
    structPackU32 v = some (u32le v.toNat) := by
  unfold structPackU32
  rw [if_pos (And.intro h0 hv)]

/-- `struct.pack("<IIII", ...)` succeeds in range with the concatenated
little-endian fields. -/
theorem structPackIIII_eq (w h : Nat) (fr : Int) (fc : Nat)
    (hw : w < 4294967296) (hh : h < 4294967296) (hfr0 : 0 ≤ fr) (hfr : fr < 4294967296)
    (hfc : fc < 4294967296) :
    structPackIIII w h fr fc = some (u32le w ++ u32le h ++ u32le fr.toNat ++ u32le fc) := by
  unfold structPackIIII
  rw [structPackU32_natCast w hw, structPackU32_natCast h hh, structPackU32_int fr hfr0 hfr,
    structPackU32_natCast fc hfc]
  rfl

/-- Claim C5: when the scan has discovered both the first png's dimensions
and a frame rate, `pack_icon_animated` appends one final write of a file
named `meta` whose bytes are `u32LE(width) ++ u32LE(height) ++
u32LE(frame_rate) ++ u32LE(frame_count)`; that header is 16 bytes, and for
width 10, height 20, frame rate 5, frame count 3 it is exactly
`0A 00 00 00 14 00 00 00 05 00 00 00 03 00 00 00`. -/
theorem pack_icon_animated_header (compress : Compressor) (files : List SrcFile)
    (st : IconScanState) (w h : Nat) (fr : Int)
    (hmark : (files.any (fun f => f.name = "frame_rate") ||
      files.any (fun f => f.name = "meta")) = true)
    (hscan : animScan compress files = some st)
    (hsz : st.size = some (w, h)) (hfr : st.frame_rate = some fr)
    (hw : w < 4294967296) (hh : h < 4294967296)
    (hfr0 : 0 ≤ fr) (hfr32 : fr < 4294967296) (hfc : st.frame_count < 4294967296) :
    pack_icon_animated compress files =
      some (st.writes ++ [("meta", u32le w ++ u32le h ++ u32le fr.toNat ++ u32le st.frame_count)]) ∧
    (u32le w ++ u32le h ++ u32le fr.toNat ++ u32le st.frame_count).length = 16 ∧
    u32le 10 ++ u32le 20 ++ u32le 5 ++ u32le 3 =
      [0x0A, 0, 0, 0, 0x14, 0, 0, 0, 0x05, 0, 0, 0, 0x03, 0, 0, 0] := by
  refine ⟨?_, by simp [u32le], by decide⟩
  rw [pack_icon_animated, if_pos hmark, hscan]
  show (match st.size, st.frame_rate with
    | some wh, some fr => do
        let hdr ← structPackIIII wh.1 wh.2 fr st.frame_count
        pure (st.writes ++ [("meta", hdr)])
    | _, _ => pure st.writes) = _
  rw [hsz, hfr]
  show (do
      let hdr ← structPackIIII w h fr st.frame_count
      pure (st.writes ++ [("meta", hdr)]) : Option _) = _
  rw [structPackIIII_eq w h fr st.frame_count hw hh hfr0 hfr32 hfc]
  rfl

/-- Demonstration directory for the header theorem: three 10 x 20 png
frames and a `frame_rate` file with text "5". -/
def demoIconFiles : List SrcFile :=
  [⟨"frame_1.png", some ((10, 20), []), []⟩,
   ⟨"frame_2.png", some ((10, 20), []), []⟩,
   ⟨"frame_3.png", some ((10, 20), []), []⟩,
   ⟨"frame_rate", none, [53]⟩]

/-- Scan result of `demoIconFiles` under the empty compression oracle. -/
def demoIconSt : IconScanState :=
  ⟨3, some 5, some (10, 20),
    [("frame_00.bm", [0]), ("frame_01.bm", [0]), ("frame_02.bm", [0])]⟩

/-- Witness for `pack_icon_animated_header` on `demoIconFiles`. -/
theorem pack_icon_animated_header_witness :
    pack_icon_animated (fun _ _ _ => []) demoIconFiles =
      some (demoIconSt.writes ++
        [("meta", u32le 10 ++ u32le 20 ++ u32le (5 : Int).toNat ++ u32le demoIconSt.frame_count)]) ∧
    (u32le 10 ++ u32le 20 ++ u32le (5 : Int).toNat ++ u32le demoIconSt.frame_count).length = 16 ∧
    u32le 10 ++ u32le 20 ++ u32le 5 ++ u32le 3 =
      [0x0A, 0, 0, 0, 0x14, 0, 0, 0, 0x05, 0, 0, 0, 0x03, 0, 0, 0] :=
  pack_icon_animated_header (fun _ _ _ => []) demoIconFiles demoIconSt 10 20 5
    (by decide) (by decide) (by decide) (by decide) (by decide) (by decide)
    (by decide) (by decide) (by decide)

/-- The loop body never sets a size on a non-png file. -/
theorem animStep_size_of_not_png (compress : Compressor) (files : List SrcFile)
    (st st' : IconScanState) (frame : SrcFile)
    (hf : pySuffix frame.name ≠ ".png") (h : animStep compress files st frame = some st') :
    st'.size = st.size := by
  unfold animStep at h
  by_cases h1 : frame.name = "frame_rate"
  · rw [if_pos h1] at h
    cases hp : parsePyInt frame.content with
    | none => rw [hp] at h; cases h
    | some fr => rw [hp] at h; cases h; rfl
  · rw [if_neg h1] at h
    by_cases h2 : frame.name = "meta"
    · rw [if_pos h2] at h; cases h; rfl
    · rw [if_neg h2, if_neg hf] at h
      by_cases h3 : pySuffix frame.name = ".bm"
      · rw [if_pos h3] at h
        by_cases h4 : (files.any (fun f => f.name = pyWithSuffix frame.name ".png")) = true
        · rw [if_pos h4] at h; cases h; rfl
        · rw [if_neg h4] at h; cases h; rfl
      · rw [if_neg h3] at h; cases h; rfl

/-- Over a directory with no png file, the scan's size stays unset. -/
theorem animFold_size_none (compress : Compressor) (files : List SrcFile) :
    ∀ (l : List SrcFile) (st0 st : IconScanState),
      (∀ f ∈ l, pySuffix f.name ≠ ".png") →
      l.foldlM (animStep compress files) st0 = some st →
      st.size = st0.size := by
  intro l
  induction l with
  | nil =>
    intro st0 st _ h
    cases h
    rfl
  | cons f fs ih =>
    intro st0 st hno h
    rw [List.foldlM_cons] at h
    cases hstep : animStep compress files st0 f with
    | none => rw [hstep] at h; cases h
    | some st1 =>
      rw [hstep] at h
      have h3 : fs.foldlM (animStep compress files) st1 = some st := h
      have h1 := animStep_size_of_not_png compress files st0 st1 f (hno f (by simp)) hstep
      have h2 := ih st1 st (fun g hg => hno g (by simp [hg])) h3
      rw [h2, h1]

/-- Claim C9: if no frame file of an animated-icon directory is a `.png`,
the scan never captures dimensions (`size` stays `None`), so even with a
`frame_rate` file present and `.bm` frames copied, no generated header is
appended: the output is exactly the scan's copies. -/
theorem pack_icon_animated_no_png (compress : Compressor) (files : List SrcFile)
    (st : IconScanState)
    (hnopng : ∀ f ∈ files, pySuffix f.name ≠ ".png")
    (hscan : animScan compress files = some st)
    (hmark : (files.any (fun f => f.name = "frame_rate") ||
      files.any (fun f => f.name = "meta")) = true) :
    st.size = none ∧ pack_icon_animated compress files = some st.writes := by
  have hsize : st.size = none := by
    have := animFold_size_none compress files
      (pySortedBy (fun a b => pyStrLt a.name b.name) files) ⟨0, none, none, []⟩ st
      (fun f hf => hnopng f (mem_pySortedBy _ f files hf)) hscan
    simpa using this
  refine ⟨hsize, ?_⟩
  rw [pack_icon_animated, if_pos hmark, hscan]
  show (match st.size, st.frame_rate with
    | some wh, some fr => do
        let hdr ← structPackIIII wh.1 wh.2 fr st.frame_count
        pure (st.writes ++ [("meta", hdr)])
    | _, _ => pure st.writes) = _
  rw [hsize]
  rfl

/-- Witness for `pack_icon_animated_no_png`: a directory holding only a
`frame_rate` file and two pre-encoded `.bm` frames copies the frames but
writes no generated header. -/
theorem pack_icon_animated_no_png_witness :
    (⟨2, some 5, none, [("frame_00.bm", [7]), ("frame_01.bm", [9])]⟩ : IconScanState).size
        = none ∧
    pack_icon_animated (fun _ _ _ => [])
      [⟨"frame_0.bm", none, [7]⟩, ⟨"frame_1.bm", none, [9]⟩, ⟨"frame_rate", none, [53]⟩] =
      some (⟨2, some 5, none,
        [("frame_00.bm", [7]), ("frame_01.bm", [9])]⟩ : IconScanState).writes :=
  pack_icon_animated_no_png (fun _ _ _ => [])
    [⟨"frame_0.bm", none, [7]⟩, ⟨"frame_1.bm", none, [9]⟩, ⟨"frame_rate", none, [53]⟩]
    ⟨2, some 5, none, [("frame_00.bm", [7]), ("frame_01.bm", [9])]⟩
    (by decide) (by decide) (by decide)

/-! ### Destination directory model -/

/-- A destination directory as an association of file names to byte
contents; a write shadows any earlier entry for the same name. -/
def fsWrite (fs : List (String × List Nat)) (p : String) (d : List Nat) :
    List (String × List Nat) :=
  (p, d) :: fs

/-- Look a file up (the newest write wins). -/
def fsLookup (fs : List (String × List Nat)) (p : String) : Option (List Nat) :=
  match fs with
  | [] => none
  | (q, d) :: rest => if q = p then some d else fsLookup rest p

/-- `Path.is_file()` on the modelled directory. -/
def fsHasFile (fs : List (String × List Nat)) (p : String) : Bool :=
  (fsLookup fs p).isSome

theorem fsLookup_write_self (fs : List (String × List Nat)) (p : String) (d : List Nat) :
    fsLookup (fsWrite fs p d) p = some d := by
  simp [fsWrite, fsLookup]

theorem fsLookup_write_other (fs : List (String × List Nat)) (p q : String) (d : List Nat)
    (h : q ≠ p) : fsLookup (fsWrite fs q d) p = fsLookup fs p := by
  simp [fsWrite, fsLookup, h]

/-! ### pack_anim (source lines 168-182) -/

/-- Python `bytes.replace(b"\r\n", b"\n")`: left-to-right, non-overlapping. -/
def crlfToLf : List Nat → List Nat
  | 13 :: 10 :: rest => 10 :: crlfToLf rest
  | b :: rest => b :: crlfToLf rest
  | [] => []

/-- One iteration of the `pack_anim` loop over the source files, threading
the destination directory: `meta.txt` is copied with line-ending
normalization, `frame_*.png` is encoded and written unconditionally as
`frame_*.bm`, and `frame_*.bm` is copied only when the destination does not
already have that file. -/
def packAnimStep (compress : Compressor) (fs : List (String × List Nat)) (frame : SrcFile) :
    Option (List (String × List Nat)) :=
  if frame.name = "meta.txt" then
    some (fsWrite fs "meta.txt" (crlfToLf frame.content))
  else if pyStarts "frame_" frame.name then
    if pySuffix frame.name = ".png" then do
      let img ← frame.image
      let bm ← convert_to_bm compress img.2
      pure (fsWrite fs (pyWithSuffix frame.name ".bm") bm)
    else if pySuffix frame.name = ".bm" then
      if fsHasFile fs frame.name then some fs
      else some (fsWrite fs frame.name frame.content)
    else some fs
  else some fs

/-- The whole of `pack_anim`: a no-op without `meta.txt`; otherwise folds
the loop body over the directory entries in iteration order. -/
def pack_anim (compress : Compressor) (srcFiles : List SrcFile)
    (dst : List (String × List Nat)) : Option (List (String × List Nat)) :=
  if srcFiles.any (fun f => f.name = "meta.txt") then
    srcFiles.foldlM (packAnimStep compress) dst
  else some dst

/-! ### pack_icon_static (source lines 215-221) -/

/-- `struct.pack("<II", w, h)` followed by the bitmap encoding: the `.bmx`
format of `convert_to_bmx` (source lines 104-111). -/
def convert_to_bmx (compress : Compressor) (size : Nat × Nat) (rows : List (List Bool)) :
    Option (List Nat) := do
  let a ← structPackU32 (size.1 : Int)
  let b ← structPackU32 (size.2 : Int)
  let bm ← convert_to_bm compress rows
  pure (a ++ b ++ bm)

/-- The whole of `pack_icon_static` for a source file whose destination path
carries the same name: a `.png` is encoded and written with suffix `.bmx`
unconditionally; a `.bmx` is copied only if the destination file is absent;
anything else is ignored. -/
def pack_icon_static (compress : Compressor) (src : SrcFile)
    (fs : List (String × List Nat)) : Option (List (String × List Nat)) :=
  if pySuffix src.name = ".png" then do
    let img ← src.image
    let bmx ← convert_to_bmx compress img.1 img.2
    pure (fsWrite fs (pyWithSuffix src.name ".bmx") bmx)
  else if pySuffix src.name = ".bmx" then
    if fsHasFile fs src.name then some fs
    else some (fsWrite fs src.name src.content)
  else some fs

/-! ### pack_font (source lines 224-242) -/

/-- Python `bytes.split(sep)` for a non-empty separator: leftmost,
non-overlapping occurrences, with enough fuel for the input length. -/
def findSep (sep : List Nat) (s : List Nat) : Option Nat :=
  (List.range (s.length + 1)).find? (fun i => listStarts sep (s.drop i)) where
  listStarts : List Nat → List Nat → Bool
    | [], _ => true
    | _ :: _, [] => false
    | a :: as, b :: bs => a = b && listStarts as bs

/-- Fuelled splitting worker. -/
def pySplitAux (sep : List Nat) : Nat → List Nat → List (List Nat)
  | 0, s => [s]
  | fuel + 1, s =>
    match findSep sep s with
    | none => [s]
    | some i => s.take i :: pySplitAux sep fuel (s.drop (i + sep.length))

/-- `bytes.split(sep)`; the fuel `s.length + 1` suffices because every step
consumes at least the separator. -/
def pySplit (sep s : List Nat) : List (List Nat) :=
  pySplitAux sep (s.length + 1) s

/-- Python `bytes.splitlines()`: breaks at LF, CR and CRLF. -/
def pySplitlines (s : List Nat) : List (List Nat) :=
  go s [] where
  go : List Nat → List Nat → List (List Nat)
    | [], acc =>
      match acc with
      | [] => []
      | _ => [acc.reverse]
    | 13 :: 10 :: rest, acc => acc.reverse :: go rest []
    | 13 :: rest, acc => acc.reverse :: go rest []
    | 10 :: rest, acc => acc.reverse :: go rest []
    | b :: rest, acc => go rest (b :: acc)

/-- The byte value of `"`. -/
def quoteByte : Nat := 34

/-- `line[line.find(b'"') + 1 : line.rfind(b'"')]`: the bytes strictly
between the first and the last quote of the line (the source only evaluates
this under the guard `line.count(b'"') == 2`). -/
def quotedPart (line : List Nat) : List Nat :=
  (line.take (line.length - 1 - ((line.reverse).findIdx (fun b => b = quoteByte)))).drop
    ((line.findIdx (fun b => b = quoteByte)) + 1)

/-- The accumulation loop of `pack_font` over the extracted code block: each
line with exactly two quote bytes contributes the escape-decoded bytes
between its quotes (`esc` is the oracle for Python's
`.decode("unicode_escape").encode("latin_1")`), then one `0x00` byte is
appended. -/
def fontBlob (esc : List Nat → List Nat) (code : List Nat) : List Nat :=
  ((pySplitlines code).foldl
    (fun font line =>
      if line.countP (fun b => b = quoteByte) = 2 then font ++ esc (quotedPart line)
      else font) []) ++ [0]

/-- The start marker ` U8G2_FONT_SECTION("` as bytes. -/
def fontMarker : List Nat :=
  [32, 85, 56, 71, 50, 95, 70, 79, 78, 84, 95, 83, 69, 67, 84, 73, 79, 78, 40, 34]

/-- The second marker `") =` as bytes. -/
def fontMarkerClose : List Nat := [34, 41, 32, 61]

/-- The `.c` branch of `pack_font`: take the chunk after the first
occurrence of the section marker, then the chunk after the close marker
(`[1]` indexing raises when a marker is absent, modelled as `none`), strip
it, and accumulate the quoted lines. -/
def pack_font_c (esc : List Nat → List Nat) (src : List Nat) : Option (List Nat) := do
  let s1 ← (pySplit fontMarker src).get? 1
  let code ← (pySplit fontMarkerClose s1).get? 1
  pure (fontBlob esc (stripBytes code))

/-- The whole of `pack_font` for a source file whose destination path
carries the same name: a `.c` source is parsed and written with suffix
`.u8f`; a `.u8f` blob is copied only if the destination file is absent. -/
def pack_font (esc : List Nat → List Nat) (src : SrcFile)
    (fs : List (String × List Nat)) : Option (List (String × List Nat)) :=
  if pySuffix src.name = ".c" then do
    let blob ← pack_font_c esc src.content
    pure (fsWrite fs (pyWithSuffix src.name ".u8f") blob)
  else if pySuffix src.name = ".u8f" then
    if fsHasFile fs src.name then some fs
    else some (fsWrite fs src.name src.content)
  else some fs

/-! ### create_asset_pack (source lines 391-418) -/

/-- Membership of the character class `[a-zA-Z0-9_\- ]`. -/
def allowedChar (c : Char) : Bool :=
  ('a' ≤ c && c ≤ 'z') || ('A' ≤ c && c ≤ 'Z') || ('0' ≤ c && c ≤ '9') ||
    c = '_' || c = '-' || c = ' '

/-- Model of `re.match(r"^[a-zA-Z0-9_\- ]+$", name)`: one or more characters
of the class; Python's `$` also matches just before one final newline, so a
name that is the class characters followed by a single trailing `\n` is
accepted as well. -/
def nameRegexAccepts (name : String) : Bool :=
  let cs := name.toList
  let core := if cs.getLast? = some '\n' then cs.dropLast else cs
  !core.isEmpty && core.all allowedChar

/-- `create_asset_pack` over a set of existing paths (relative to the output
directory): reject illegal names, reject an existing pack, otherwise create
the scaffold directories and files. -/
def create_asset_pack (name : String) (fs : List String) : List String :=
  if !nameRegexAccepts name then fs
  else if fs.contains name then fs
  else fs ++ [name, name ++ "/Anims", name ++ "/Icons", name ++ "/Fonts",
    name ++ "/Anims/manifest.txt", name ++ "/Anims/example_anim",
    name ++ "/Anims/example_anim/meta.txt"]

/-- Claim C8 (amended): a requested pack name containing a character outside
`[A-Za-z0-9_- ]` at any position other than a single trailing newline is
rejected before any filesystem mutation. (Because Python's `$` matches just
before a final newline, a name such as "a\n" slips through the check, see
the counterexample.) -/
theorem create_asset_pack_rejects (name : String) (fs : List String)
    (h : ∃ c ∈ (if name.toList.getLast? = some '\n' then name.toList.dropLast
      else name.toList), allowedChar c = false) :
    create_asset_pack name fs = fs := by
  have hacc : nameRegexAccepts name = false := by
    unfold nameRegexAccepts
    obtain ⟨c, hc, hbad⟩ := h
    have hall : (if name.toList.getLast? = some '\n' then name.toList.dropLast
        else name.toList).all allowedChar = false := by
      cases hcase : (if name.toList.getLast? = some '\n' then name.toList.dropLast
          else name.toList).all allowedChar with
      | false => rfl
      | true =>
        have := List.all_eq_true.mp hcase c hc
        rw [hbad] at this
        cases this
    simp only [hall, Bool.and_false]
  unfold create_asset_pack
  rw [hacc]
  rfl

/-- Witness for `create_asset_pack_rejects`: the name "a/b" (the claim's
example of an illegal character) mutates nothing. -/
theorem create_asset_pack_rejects_witness :
    create_asset_pack "a/b" ["other"] = ["other"] :=
  create_asset_pack_rejects "a/b" ["other"] ⟨'/', by decide, by decide⟩

/-- Claim C8 counterexample: "a\n" contains the character `\n`, which is
outside `[A-Za-z0-9_- ]`, yet `create_asset_pack` accepts it (Python's `$`
matches before a final newline) and creates the pack scaffold: the
filesystem is mutated. -/
theorem create_asset_pack_rejects_counterexample :
    ('\n' ∈ "a\n".toList ∧ allowedChar '\n' = false) ∧
    create_asset_pack "a\n" [] ≠ [] := by
  exact ⟨⟨by decide, by decide⟩, by decide⟩

/-! ### Passthrough protection (claim C7) -/

/-- The loop body of `pack_anim` never overwrites an existing destination
entry `p`, provided `p` is not `meta.txt` and the processed file is not a
`frame_*.png` encoding to `p`. -/
theorem packAnimStep_preserves (compress : Compressor) (fs fs' : List (String × List Nat))
    (frame : SrcFile) (p : String) (d : List Nat)
    (hl : fsLookup fs p = some d)
    (hns : ¬(pyStarts "frame_" frame.name = true ∧ pySuffix frame.name = ".png" ∧
      pyWithSuffix frame.name ".bm" = p))
    (hp : p ≠ "meta.txt")
    (h : packAnimStep compress fs frame = some fs') :
    fsLookup fs' p = some d := by
  unfold packAnimStep at h
  by_cases h1 : frame.name = "meta.txt"
  · rw [if_pos h1] at h
    cases h
    rw [fsLookup_write_other _ _ _ _ (Ne.symm hp)]
    exact hl
  · rw [if_neg h1] at h
    by_cases h2 : pyStarts "frame_" frame.name = true
    · rw [if_pos h2] at h
      by_cases h3 : pySuffix frame.name = ".png"
      · rw [if_pos h3] at h
        cases himg : frame.image with
        | none => rw [himg] at h; cases h
        | some img =>
          rw [himg] at h
          have h' : (convert_to_bm compress img.2).bind
              (fun bm => some (fsWrite fs (pyWithSuffix frame.name ".bm") bm)) = some fs' := h
          cases hbm : convert_to_bm compress img.2 with
          | none => rw [hbm] at h'; cases h'
          | some bm =>
            rw [hbm] at h'
            cases h'
            rw [fsLookup_write_other _ _ _ _ (fun hcontra => hns ⟨h2, h3, hcontra⟩)]
            exact hl
      · rw [if_neg h3] at h
        by_cases h4 : pySuffix frame.name = ".bm"
        · rw [if_pos h4] at h
          by_cases h5 : fsHasFile fs frame.name = true
          · rw [if_pos h5] at h; cases h; exact hl
          · rw [if_neg h5] at h
            cases h
            by_cases h6 : frame.name = p
            · exfalso
              rw [h6] at h5
              rw [fsHasFile, hl] at h5
              exact h5 rfl
            · rw [fsLookup_write_other _ _ _ _ h6]
              exact hl
        · rw [if_neg h4] at h; cases h; exact hl
    · rw [if_neg h2] at h; cases h; exact hl

/-- The fold of `pack_anim` preserves a protected destination entry. -/
theorem packAnimFold_preserves (compress : Compressor) (p : String) (d : List Nat)
    (hp : p ≠ "meta.txt") :
    ∀ (l : List SrcFile) (fs fs' : List (String × List Nat)),
      (∀ f ∈ l, ¬(pyStarts "frame_" f.name = true ∧ pySuffix f.name = ".png" ∧
        pyWithSuffix f.name ".bm" = p)) →
      fsLookup fs p = some d →
      l.foldlM (packAnimStep compress) fs = some fs' →
      fsLookup fs' p = some d := by
  intro l
  induction l with
  | nil =>
    intro fs fs' _ hl h
    cases h
    exact hl
  | cons f fsrc ih =>
    intro fs fs' hno hl h
    rw [List.foldlM_cons] at h
    cases hstep : packAnimStep compress fs f with
    | none => rw [hstep] at h; cases h
    | some fs1 =>
      rw [hstep] at h
      have h3 : fsrc.foldlM (packAnimStep compress) fs1 = some fs' := h
      have h1 := packAnimStep_preserves compress fs fs1 f p d hl (hno f (by simp)) hp hstep
      exact ih fs1 fs' (fun g hg => hno g (by simp [hg])) h1 h3

/-- Claim C7 (amended): a passthrough asset already present at its
destination survives packing, with one proviso for animation directories: no
sibling `frame_*.png` may encode to the same destination name (such a png is
re-encoded unconditionally and overwrites). Concretely: (1) in `pack_anim` a
destination entry other than `meta.txt` that no source png maps onto is left
byte-for-byte unchanged, and in particular a source `frame_*.bm` is copied
only when the destination file is absent; (2) a `.bmx` static icon whose
destination exists is left unchanged; (3) a `.u8f` font whose destination
exists is left unchanged. -/
theorem passthrough_preserved :
    (∀ (compress : Compressor) (srcFiles : List SrcFile)
      (dst fs' : List (String × List Nat)) (p : String) (d : List Nat),
      fsLookup dst p = some d →
      (∀ f ∈ srcFiles, ¬(pyStarts "frame_" f.name = true ∧ pySuffix f.name = ".png" ∧
        pyWithSuffix f.name ".bm" = p)) →
      p ≠ "meta.txt" →
      pack_anim compress srcFiles dst = some fs' →
      fsLookup fs' p = some d) ∧
    (∀ (compress : Compressor) (src : SrcFile) (fs fs' : List (String × List Nat)) (d : List Nat),
      pySuffix src.name = ".bmx" →
      fsLookup fs src.name = some d →
      pack_icon_static compress src fs = some fs' →
      fsLookup fs' src.name = some d) ∧
    (∀ (esc : List Nat → List Nat) (src : SrcFile) (fs fs' : List (String × List Nat))
      (d : List Nat),
      pySuffix src.name = ".u8f" →
      fsLookup fs src.name = some d →
      pack_font esc src fs = some fs' →
      fsLookup fs' src.name = some d) := by
  refine ⟨?_, ?_, ?_⟩
  · intro compress srcFiles dst fs' p d hl hno hp h
    unfold pack_anim at h
    by_cases hm : (srcFiles.any (fun f => f.name = "meta.txt")) = true
    · rw [if_pos hm] at h
      exact packAnimFold_preserves compress p d hp srcFiles dst fs' hno hl h
    · rw [if_neg hm] at h
      cases h
      exact hl
  · intro compress src fs fs' d hsuf hl h
    unfold pack_icon_static at h
    have hnp : ¬(pySuffix src.name = ".png") := by rw [hsuf]; decide
    rw [if_neg hnp, if_pos hsuf] at h
    have hhas : fsHasFile fs src.name = true := by rw [fsHasFile, hl]; rfl
    rw [if_pos hhas] at h
    cases h
    exact hl
  · intro esc src fs fs' d hsuf hl h
    unfold pack_font at h
    have hnc : ¬(pySuffix src.name = ".c") := by rw [hsuf]; decide
    rw [if_neg hnc, if_pos hsuf] at h
    have hhas : fsHasFile fs src.name = true := by rw [fsHasFile, hl]; rfl
    rw [if_pos hhas] at h
    cases h
    exact hl

/-- Witness for `passthrough_preserved`: an animation directory with
`meta.txt` and a pre-encoded `frame_0.bm` whose destination already holds
sentinel bytes `[77]` leaves them in place; likewise a `.bmx` icon and a
`.u8f` font with existing destinations. -/
theorem passthrough_preserved_witness :
    fsLookup [("meta.txt", []), ("frame_0.bm", [77])] "frame_0.bm" = some [77] ∧
    fsLookup [("icon.bmx", [9])] "icon.bmx" = some [9] ∧
    fsLookup [("font.u8f", [9])] "font.u8f" = some [9] :=
  ⟨passthrough_preserved.1 (fun _ _ _ => [])
      [⟨"meta.txt", none, []⟩, ⟨"frame_0.bm", none, [7, 7]⟩]
      [("frame_0.bm", [77])] [("meta.txt", []), ("frame_0.bm", [77])] "frame_0.bm" [77]
      (by decide) (by decide) (by decide) (by decide),
   passthrough_preserved.2.1 (fun _ _ _ => []) ⟨"icon.bmx", none, [1, 2, 3]⟩
      [("icon.bmx", [9])] [("icon.bmx", [9])] [9] (by decide) (by decide) (by decide),
   passthrough_preserved.2.2 (fun s => s) ⟨"font.u8f", none, [1, 2, 3]⟩
      [("font.u8f", [9])] [("font.u8f", [9])] [9] (by decide) (by decide) (by decide)⟩

/-- Claim C7 counterexample: a destination `frame_0.bm` seeded with sentinel
bytes `[77]` does not survive packing an animation directory that contains
both `frame_0.png` and the pre-encoded `frame_0.bm`: the png branch encodes
and writes `frame_0.bm` unconditionally, so the sentinel is replaced by the
fresh encoding `[0, 0]` even though a file already existed at the
destination path of the passthrough asset. -/
theorem passthrough_preserved_counterexample :
    fsLookup [("frame_0.bm", [77])] "frame_0.bm" = some [77] ∧
    pack_anim (fun _ _ _ => [])
      [⟨"meta.txt", none, [77]⟩,
       ⟨"frame_0.png", some ((8, 1), [[false, false, false, false, false, false, false, false]]), []⟩,
       ⟨"frame_0.bm", none, [7, 7]⟩]
      [("frame_0.bm", [77])] =
      some [("frame_0.bm", [0, 0]), ("meta.txt", [77]), ("frame_0.bm", [77])] ∧
    fsLookup [("frame_0.bm", [0, 0]), ("meta.txt", [77]), ("frame_0.bm", [77])] "frame_0.bm" =
      some [0, 0] ∧
    (some [0, 0] : Option (List Nat)) ≠ some [77] := by
  exact ⟨by decide, by decide, by decide, by decide⟩

/-! ### Font extraction (claim C6) -/

/-- Guarded accumulation is concatenation over the filtered, mapped lines. -/
theorem foldl_if_append {α : Type} (p : α → Prop) [DecidablePred p] (f : α → List Nat) :
    ∀ (lines : List α) (acc : List Nat),
      lines.foldl (fun font line => if p line then font ++ f line else font) acc =
        acc ++ ((lines.filter (fun line => decide (p line))).map f).flatten := by
  intro lines
  induction lines with
  | nil => intro acc; simp
  | cons l ls ih =>
    intro acc
    rw [List.foldl_cons]
    by_cases hp : p l
    · rw [if_pos hp, ih, List.filter_cons_of_pos (by simpa using hp)]
      simp [List.append_assoc]
    · rw [if_neg hp, ih, List.filter_cons_of_neg (by simpa using hp)]

/-- Demonstration font source: `x U8G2_FONT_SECTION("f") =` followed by the
two quoted lines `"AB"` and `"CD";`. -/
def fontDemoSrc : List Nat :=
  [120, 32, 85, 56, 71, 50, 95, 70, 79, 78, 84, 95, 83, 69, 67, 84, 73, 79, 78, 40, 34,
   102, 34, 41, 32, 61, 10, 34, 65, 66, 34, 10, 34, 67, 68, 34, 59]

/-- Claim C6: the font blob accumulated from the code block after the
markers is exactly the concatenation, in line order, of the escape-decoded
quoted parts of the lines holding exactly one quoted string literal (two
quote bytes), followed by a single trailing `0x00`; and on a source whose
marker is followed by two quoted lines of two bytes each, the output is
those four bytes plus the trailing `0x00`. -/
theorem pack_font_extraction :
    (∀ (esc : List Nat → List Nat) (code : List Nat),
      fontBlob esc code =
        (((pySplitlines code).filter
          (fun line => decide (line.countP (fun b => b = quoteByte) = 2))).map
          (fun line => esc (quotedPart line))).flatten ++ [0]) ∧
    pack_font_c (fun s => s) fontDemoSrc = some [65, 66, 67, 68, 0] := by
  constructor
  · intro esc code
    unfold fontBlob
    rw [foldl_if_append (fun line => line.countP (fun b => b = quoteByte) = 2)
      (fun line => esc (quotedPart line)) (pySplitlines code) []]
    simp
  · decide

end AssetPacker
